import Mathlib

/-!
Shallow embedding of the command dispatch and context-switching core of
the terminal-engine repository: `src/core/command-registry.js`
(CommandRegistry) and `src/core/context-manager.js` (ContextManager).

Modelling conventions:
* JS `Map` objects with string keys become insertion-ordered association
  lists `List (String × α)`; `get`/`set`/`has`/`delete` are `mapGet`,
  `mapSet`, `mapHas`, `mapDelete` below, with `set` updating in place and
  appending new keys, as JS `Map.set` does.
* `String.prototype.toLowerCase()` becomes `lower`, ASCII case folding on
  the code points of the string (command names in the engine are ASCII).
* A command handler (`execute` field of a command object) is a function
  from (args, context) to an outcome that either throws with a message or
  returns an optional `Result` object; `none` stands for a handler that
  returned nothing (JS `undefined`, falsy).
* `console.debug`/`console.error` logging and `eventBus.emit`
  notifications inside the registry do not touch the command map and are
  elided; the ContextManager transition, whose observable behaviour the
  spec states in terms of hook ordering and emitted notifications, is
  instrumented with an explicit event trace instead.
* `async`/`await` in this codebase is purely sequential cooperative
  scheduling (spec §5); awaited calls are modelled as ordinary sequential
  evaluation, with the trace recording the order in which lifecycle hooks
  run to completion.
-/

namespace TermEngine

/-- ASCII case folding of one character, as JS `toLowerCase` acts on the
ASCII range used by the engine's command names. -/
def lowerChar (c : Char) : Char :=
  if c.val ≥ 65 && c.val ≤ 90 then Char.ofNat (c.toNat + 32) else c

/-- Model of `s.toLowerCase()` on ASCII strings: fold every character. -/
def lower (s : String) : String := ⟨s.data.map lowerChar⟩

/-- Argument list passed to a command handler. -/
abbrev Args := List String

/-- The slice of a context object the registry reads: its `type` tag
(`context?.type` in `isAvailableInContext`). -/
structure Ctx where
  type : String

/-- A handler `Result` object: success flag plus the optional `error`,
`output` and `className` fields the engine's handlers and the registry
itself put on results. -/
structure Result where
  success : Bool
  error : Option String := none
  output : Option String := none
  className : Option String := none
deriving DecidableEq, Repr

/-- What a handler invocation does: throw an error carrying a message, or
return (`none` = the handler returned nothing / a falsy value, which
`execute` replaces by a bare success). -/
inductive HandlerOutcome where
  | throws (msg : String)
  | ret (result : Option Result)

/-- A command handler: `(args, context) => outcome`. -/
abbrev Handler := Args → Option Ctx → HandlerOutcome

/-- A registered command object, as built by `register` (all fields
present, defaults applied). The handler field is called `execute` in the
source; `run` here to keep it apart from `CommandRegistry.execute`. -/
structure Command where
  name : String
  aliases : List String
  contexts : List String
  description : String
  usage : String
  run : Handler
  hidden : Bool

/-- A command configuration as passed to `register`: every field may be
absent (`undefined`). JS falsiness of `name` covers both absence and the
empty string. -/
structure CommandConfig where
  name : Option String := none
  aliases : Option (List String) := none
  contexts : Option (List String) := none
  description : Option String := none
  usage : Option String := none
  run : Option Handler := none
  hidden : Option Bool := none

/-- Model of `Map.prototype.get`: value of the entry with this key, if any. -/
def mapGet {α : Type} : List (String × α) → String → Option α
  | [], _ => none
  | e :: rest, k => if e.1 = k then some e.2 else mapGet rest k

/-- Model of `Map.prototype.has`. -/
def mapHas {α : Type} : List (String × α) → String → Bool
  | [], _ => false
  | e :: rest, k => if e.1 = k then true else mapHas rest k

/-- Model of `Map.prototype.set`: replace the value of an existing entry in place
(keeping its position), append a new entry otherwise. -/
def mapSet {α : Type} : List (String × α) → String → α → List (String × α)
  | [], k, v => [(k, v)]
  | e :: rest, k, v =>
    if e.1 = k then (e.1, v) :: rest else e :: mapSet rest k v

/-- Model of `Map.prototype.delete`: drop the entry with this key (result map
only; the registry never reads the returned boolean). -/
def mapDelete {α : Type} : List (String × α) → String → List (String × α)
  | [], _ => []
  | e :: rest, k =>
    if e.1 = k then mapDelete rest k else e :: mapDelete rest k

/-- The CommandRegistry state the claims concern: its `commands` map.
(The `globalCommands` set built in the constructor is never read by any
registry operation and is omitted.) -/
structure Registry where
  commands : List (String × Command)

/-- The empty registry, as built by the constructor. -/
def Registry.empty : Registry := ⟨[]⟩

/-- Model of `context?.type || 'local'`: the type tag used for eligibility, falling
back to `'local'` when the context is null/undefined or its type is
falsy (empty). -/
def contextType (context : Option Ctx) : String :=
  match context with
  | none => "local"
  | some c => if c.type.isEmpty then "local" else c.type

/-- Model of `isAvailableInContext(command, context)`. For commands held in the
registry `command.contexts` is always an array (register applies the
`['*']` default), so the JS `!command.contexts` guard is never taken and
the check is: wildcard present, else membership of the context's type. -/
def isAvailableInContext (command : Command) (context : Option Ctx) : Bool :=
  if command.contexts.contains "*" then true
  else command.contexts.contains (contextType context)

/-- The command object `register` builds from a configuration after
destructuring with defaults (`aliases = []`, `contexts = ['*']`,
`description = ''`, `usage = ''`, `hidden = false`). -/
def mkCommand (cfg : CommandConfig) (name : String) (run : Handler) :
    Command :=
  { name := name
    aliases := cfg.aliases.getD []
    contexts := cfg.contexts.getD ["*"]
    description := cfg.description.getD ""
    usage := cfg.usage.getD ""
    run := run
    hidden := cfg.hidden.getD false }

/-- The primary-entry step of `register`: if the lowercased name key is
free the command is stored; if the existing entry's stored name equals
the key it is kept; otherwise it is overwritten exactly when its stored
name also differs from the new (unlowered) name. -/
def registerPrimary (command : Command) (m : List (String × Command))
    (nameKey name : String) : List (String × Command) :=
  match mapGet m nameKey with
  | some existing =>
    if existing.name = nameKey then m
    else if existing.name ≠ name then mapSet m nameKey command
    else m
  | none => mapSet m nameKey command

/-- The alias loop of `register`: for each alias, write the command
under the lowercased alias key unless that key already exists. -/
def registerAliases (command : Command) (m : List (String × Command))
    (aliases : List String) : List (String × Command) :=
  aliases.foldl
    (fun m a =>
      let aliasKey := lower a
      if mapHas m aliasKey then m else mapSet m aliasKey command)
    m

/-- The alias loop of `unregister`: delete each lowercased alias key. -/
def unregisterAliases (m : List (String × Command)) (aliases : List String) :
    List (String × Command) :=
  aliases.foldl (fun m a => mapDelete m (lower a)) m

/-- Model of `register(commandConfig)`: returns the updated registry and the
boolean result. Follows the source line by line: falsy name or missing
handler fails; the command object is built with defaults; the primary
entry is written unless the key is taken by an entry that survives the
two guards; aliases are written only into free keys. -/
def register (reg : Registry) (cfg : CommandConfig) : Registry × Bool :=
  match cfg.name, cfg.run with
  | some name, some run =>
    if name.isEmpty then (reg, false)
    else
      let command := mkCommand cfg name run
      let nameKey := lower name
      let m1 := registerPrimary command reg.commands nameKey name
      let m2 := registerAliases command m1 (cfg.aliases.getD [])
      (⟨m2⟩, true)
  | _, _ => (reg, false)

/-- Model of `unregister(name)`: delete the looked-up key and each of the found
command's alias keys. -/
def unregister (reg : Registry) (name : String) : Registry × Bool :=
  match mapGet reg.commands (lower name) with
  | none => (reg, false)
  | some command =>
    let m1 := mapDelete reg.commands (lower name)
    let m2 := unregisterAliases m1 command.aliases
    (⟨m2⟩, true)

/-- The failure Result `execute` synthesizes when the name is absent. -/
def notFoundResult (name : String) : Result :=
  { success := false
    error := some ("Command not found: " ++ name ++
      "\nType 'help' for available commands.") }

/-- The failure Result `execute` synthesizes on the eligibility path. -/
def notAvailableResult (name : String) : Result :=
  { success := false
    error := some ("Command '" ++ name ++
      "' is not available in this context.") }

/-- Model of `execute(name, args, context)`: case-insensitive lookup, eligibility
check, then handler invocation inside try/catch with the
`result || { success: true }` default. `execute` only reads the command
map; it returns no updated registry because it performs no mutation. -/
def execute (reg : Registry) (name : String) (args : Args)
    (context : Option Ctx) : Result :=
  match mapGet reg.commands (lower name) with
  | none => notFoundResult name
  | some command =>
    if !isAvailableInContext command context then
      notAvailableResult name
    else
      match command.run args context with
      | .throws msg => { success := false, error := some ("Error: " ++ msg) }
      | .ret (some result) => result
      | .ret none => { success := true }

/-- Model of `getCommand(name)`: case-insensitive metadata lookup. -/
def getCommand (reg : Registry) (name : String) : Option Command :=
  mapGet reg.commands (lower name)

/-- The default JS `Array.prototype.sort()` comparator on strings:
lexicographic comparison of code units. -/
def codeUnitsLe : List Char → List Char → Bool
  | [], _ => true
  | _ :: _, [] => false
  | a :: as, b :: bs =>
    if a.toNat < b.toNat then true
    else if b.toNat < a.toNat then false
    else codeUnitsLe as bs

/-- Code-unit comparison lifted to strings. -/
def strLe (a b : String) : Bool := codeUnitsLe a.data b.data

/-- Model of `getAvailableCommands(context)`: walk the map in insertion order,
skip entries whose key differs from the stored command's `name` (the
source's alias test `command.name !== name`), skip hidden commands, keep
keys of commands available in the context, then `sort()`. -/
def getAvailableCommands (reg : Registry) (context : Option Ctx) :
    List String :=
  let available := (reg.commands.filter (fun e =>
    e.2.name == e.1 && !e.2.hidden && isAvailableInContext e.2 context)).map
    (·.1)
  available.mergeSort strLe

/-- Model of `has(name)`. -/
def hasCommand (reg : Registry) (name : String) : Bool :=
  mapHas reg.commands (lower name)

/-! ### ContextManager (`src/core/context-manager.js`)

A registered context instance, reduced to what `switchContext` reads:
its `id`, its `type` tag and the prompt string `getPrompt()` produces.
The `onEnter`/`onExit` hooks are opaque awaited effects; the transition
function records their invocation (run to completion, since the await is
sequential) in an event trace, together with the `terminal:output` and
`context:changed` notifications the manager emits. -/

/-- A context instance held by the ContextManager. -/
structure CtxInst where
  id : String
  type : String
  prompt : String

/-- Parameters object passed to `onEnter`. -/
abbrev Params := List (String × String)

/-- Observable events of one ContextManager transition, in order:
`output` is a `terminal:output` emission, `exitHook c` records the
awaited completion of context `c`'s `onExit()`, `enterHook c p` the
awaited completion of `onEnter(p)`, and `contextChanged` the
`context:changed` notification. -/
inductive CMEvent where
  | output (text : String) (className : String)
  | exitHook (id : String)
  | enterHook (id : String) (params : Params)
  | contextChanged (contextId : String) (prompt : String)
deriving DecidableEq, Repr

/-- ContextManager state: the registered context map, the single active
context (`none` before the first switch — the `Option` enforces that at
most one context is active at any time), the stack of previously active
contexts, whether the filesystem-change listener is installed, and the
context id persisted into the shared state store. -/
structure CMState where
  contexts : List (String × CtxInst)
  currentContext : Option CtxInst
  contextStack : List CtxInst
  hasFsListener : Bool
  persistedContextId : Option String

/-- Model of `switchContext(contextId, params)`: unknown id emits an error output
and fails leaving the state alone; otherwise the current context (if
any) is exited and pushed, the target becomes current, its `onEnter` is
awaited, the prompt notification is published, the filesystem listener
is (re)installed and the id persisted. Returns (state, event trace,
boolean result). -/
def switchContext (s : CMState) (contextId : String) (params : Params) :
    CMState × List CMEvent × Bool :=
  match mapGet s.contexts contextId with
  | none =>
    (s, [.output ("Error: Unknown context '" ++ contextId ++ "'")
        "text-error"], false)
  | some newContext =>
    let exitEvents : List CMEvent :=
      match s.currentContext with
      | some cur => [.exitHook cur.id]
      | none => []
    let stack1 :=
      match s.currentContext with
      | some cur => s.contextStack ++ [cur]
      | none => s.contextStack
    let s1 : CMState :=
      { s with
        currentContext := some newContext
        contextStack := stack1
        hasFsListener := true
        persistedContextId := some contextId }
    (s1,
     exitEvents ++ [.enterHook newContext.id params,
       .contextChanged contextId newContext.prompt],
     true)

/-- Model of `getCurrentContext()`. -/
def getCurrentContext (s : CMState) : Option CtxInst :=
  s.currentContext

/-! ### Concrete sample data for counterexamples and witnesses -/

/-- A handler that returns nothing (JS `undefined`). -/
def hNone : Handler := fun _ _ => .ret none

/-- A handler that throws with a fixed message. -/
def hThrow : Handler := fun _ _ => .throws "kaboom"

/-- A handler that returns a successful Result with fixed output. -/
def hOk : Handler := fun _ _ => .ret (some { success := true, output := some "done" })

/-- First registration of primary name `a`. -/
def cfgA1 : CommandConfig :=
  { name := some "a", description := some "first", run := some hNone }

/-- Second registration reusing primary name `a`. -/
def cfgA2 : CommandConfig :=
  { name := some "a", description := some "second", run := some hNone }

/-- Registry holding only `cfgA1`'s command. -/
def regA1 : Registry := (register Registry.empty cfgA1).1

/-- A command `b` whose alias `a` collides with the registered `a`. -/
def cfgB : CommandConfig :=
  { name := some "b", aliases := some ["a"], description := some "second",
    run := some hNone }

/-- Registry after registering `a` then `b` (alias `a` colliding). -/
def regB : Registry := (register regA1 cfgB).1

/-- A command `help` with alias `h`. -/
def cfgHelp : CommandConfig :=
  { name := some "help", aliases := some ["h"], run := some hNone }

/-- Registry holding `help` (alias `h`). -/
def regH : Registry := (register Registry.empty cfgHelp).1

/-- A command registered under the mixed-case primary name `Help`. -/
def cfgUC : CommandConfig := { name := some "Help", run := some hNone }

/-- Registry holding only the mixed-case `Help` command. -/
def regUC : Registry := (register Registry.empty cfgUC).1

/-- A throwing command `boom` restricted to no context set (wildcard). -/
def cfgBoom : CommandConfig := { name := some "boom", run := some hThrow }

/-- A well-behaved command `ok`. -/
def cfgOk : CommandConfig := { name := some "ok", run := some hOk }

/-- Registry with the throwing `boom` and the well-behaved `ok`. -/
def regBoomOk : Registry := (register (register Registry.empty cfgBoom).1 cfgOk).1

/-- A command only eligible in `bbs` contexts. -/
def cmdBbs : Command :=
  { name := "login", aliases := [], contexts := ["bbs"], description := ""
    usage := "", run := hNone, hidden := false }

/-- A command only eligible in `local` contexts. -/
def cmdLocal : Command :=
  { name := "go", aliases := [], contexts := ["local"], description := ""
    usage := "", run := hOk, hidden := false }

/-- Registry that holds `cmdLocal` directly. -/
def regLocal : Registry := ⟨[("go", cmdLocal)]⟩

/-- Sample context instances for the ContextManager claims. -/
def ctxLocalInst : CtxInst := { id := "local", type := "local", prompt := "$" }

/-- A second sample context instance. -/
def ctxBbsInst : CtxInst := { id := "bbs", type := "bbs", prompt := "[BBS]>" }

/-- A ContextManager state with `local` active and `bbs` registered. -/
def cmActive : CMState :=
  { contexts := [("local", ctxLocalInst), ("bbs", ctxBbsInst)]
    currentContext := some ctxLocalInst
    contextStack := []
    hasFsListener := true
    persistedContextId := some "local" }

/-! ### Helper lemmas about the JS `Map` model -/

theorem mapHas_eq_isSome {α : Type} (m : List (String × α)) (k : String) :
    mapHas m k = (mapGet m k).isSome := by
  induction m with
  | nil => rfl
  | cons e rest ih =>
    by_cases h : e.1 = k <;> simp [mapHas, mapGet, h, ih]

theorem mapGet_set_self {α : Type} (m : List (String × α)) (k : String)
    (v : α) : mapGet (mapSet m k v) k = some v := by
  induction m with
  | nil => simp [mapSet, mapGet]
  | cons e rest ih =>
    by_cases h : e.1 = k <;> simp [mapSet, mapGet, h, ih]

theorem mapGet_set_ne {α : Type} (m : List (String × α)) (k k' : String)
    (v : α) (h : k' ≠ k) : mapGet (mapSet m k v) k' = mapGet m k' := by
  induction m with
  | nil => simp [mapSet, mapGet, Ne.symm h]
  | cons e rest ih =>
    by_cases he : e.1 = k
    · have he' : ¬ e.1 = k' := fun hh => h (hh ▸ he ▸ rfl)
      simp [mapSet, mapGet, he, he', Ne.symm h]
    · by_cases he' : e.1 = k' <;> simp [mapSet, mapGet, he, he', ih, h]

theorem mapGet_delete {α : Type} (m : List (String × α)) (k k' : String) :
    mapGet (mapDelete m k') k = if k = k' then none else mapGet m k := by
  induction m with
  | nil => simp [mapDelete, mapGet]
  | cons e rest ih =>
    by_cases he : e.1 = k'
    · by_cases hk : k = k'
      · simp [mapDelete, mapGet, he, hk] at ih ⊢; exact ih
      · have he' : ¬ e.1 = k := fun hh => hk (hh ▸ he ▸ rfl)
        have hk' : ¬ k' = k := fun hh => hk hh.symm
        simp [mapDelete, mapGet, he, he', hk, hk'] at ih ⊢; exact ih
    · by_cases he' : e.1 = k
      · have hk : ¬ k = k' := fun hh => he (he' ▸ hh ▸ rfl)
        simp [mapDelete, mapGet, he, he', hk]
      · simp [mapDelete, mapGet, he, he', ih]

theorem registerAliases_preserves (c : Command)
    (m : List (String × Command)) (as : List String) (k : String)
    (v : Command) (h : mapGet m k = some v) :
    mapGet (registerAliases c m as) k = some v := by
  induction as generalizing m with
  | nil => simpa [registerAliases]
  | cons a rest ih =>
    by_cases hh : mapHas m (lower a)
    · simpa [registerAliases, List.foldl, hh] using ih m h
    · by_cases hk : k = lower a
      · exfalso
        rw [mapHas_eq_isSome] at hh
        rw [hk] at h
        simp [h] at hh
      · have h' : mapGet (mapSet m (lower a) c) k = some v := by
          rw [mapGet_set_ne m (lower a) k c hk]; exact h
        simpa [registerAliases, List.foldl, hh] using ih _ h'

theorem registerAliases_not_mem (c : Command)
    (m : List (String × Command)) (as : List String) (k : String)
    (h : ¬ k ∈ as.map lower) :
    mapGet (registerAliases c m as) k = mapGet m k := by
  induction as generalizing m with
  | nil => simp [registerAliases]
  | cons a rest ih =>
    have hk : k ≠ lower a := by
      intro hh; exact h (by simp [hh])
    have hrest : ¬ k ∈ rest.map lower := by
      intro hh; exact h (by simp [hh])
    by_cases hh : mapHas m (lower a)
    · simpa [registerAliases, List.foldl, hh] using ih m hrest
    · have := ih (mapSet m (lower a) c) hrest
      rw [mapGet_set_ne m (lower a) k c hk] at this
      simpa [registerAliases, List.foldl, hh] using this

theorem registerAliases_mem (c : Command) (m : List (String × Command))
    (as : List String) (k : String)
    (h : mapGet m k = none ∨ mapGet m k = some c)
    (hm : k ∈ as.map lower) :
    mapGet (registerAliases c m as) k = some c := by
  induction as generalizing m with
  | nil => simp at hm
  | cons a rest ih =>
    by_cases hk : k = lower a
    · by_cases hh : mapHas m (lower a)
      · have hsome : mapGet m k = some c := by
          rcases h with h | h
          · exfalso
            rw [mapHas_eq_isSome, ← hk, h] at hh
            simp at hh
          · exact h
        simpa [registerAliases, List.foldl, hh] using
          registerAliases_preserves c m rest k c hsome
      · have hset : mapGet (mapSet m (lower a) c) k = some c := by
          rw [hk]; exact mapGet_set_self m (lower a) c
        simpa [registerAliases, List.foldl, hh] using
          registerAliases_preserves c _ rest k c hset
    · have hrest : k ∈ rest.map lower := by
        rcases List.mem_map.mp hm with ⟨b, hb, he⟩
        rcases List.mem_cons.mp hb with hb1 | hb2
        · exact absurd (hb1 ▸ he).symm hk
        · exact List.mem_map.mpr ⟨b, hb2, he⟩
      by_cases hh : mapHas m (lower a)
      · simpa [registerAliases, List.foldl, hh] using ih m h hrest
      · have h' : mapGet (mapSet m (lower a) c) k = none ∨
            mapGet (mapSet m (lower a) c) k = some c := by
          rw [mapGet_set_ne m (lower a) k c hk]; exact h
        simpa [registerAliases, List.foldl, hh] using ih _ h' hrest

theorem registerPrimary_free (c : Command) (m : List (String × Command))
    (nameKey name : String) (h : mapGet m nameKey = none) :
    registerPrimary c m nameKey name = mapSet m nameKey c := by
  simp [registerPrimary, h]

theorem registerPrimary_firstwins (c : Command)
    (m : List (String × Command)) (nameKey name : String) (e : Command)
    (h : mapGet m nameKey = some e) (hn : e.name = nameKey) :
    registerPrimary c m nameKey name = m := by
  simp [registerPrimary, h, hn]

theorem registerPrimary_get_ne (c : Command) (m : List (String × Command))
    (nameKey name k : String) (h : k ≠ nameKey) :
    mapGet (registerPrimary c m nameKey name) k = mapGet m k := by
  unfold registerPrimary
  cases hget : mapGet m nameKey with
  | none => exact mapGet_set_ne m nameKey k c h
  | some existing =>
    by_cases h1 : existing.name = nameKey
    · simp [h1]
    · by_cases h2 : existing.name = name
      · simp [h1, h2]
      · simp [h1, h2, mapGet_set_ne m nameKey k c h]

theorem register_success_eq (reg : Registry) (cfg : CommandConfig)
    (name : String) (run : Handler) (hname : cfg.name = some name)
    (hrun : cfg.run = some run) (hne : name.isEmpty = false) :
    register reg cfg =
      (⟨registerAliases (mkCommand cfg name run)
          (registerPrimary (mkCommand cfg name run) reg.commands
            (lower name) name)
          (cfg.aliases.getD [])⟩, true) := by
  unfold register
  rw [hname, hrun]
  simp [hne]

theorem register_get_primary_free (reg : Registry) (cfg : CommandConfig)
    (name : String) (run : Handler) (hname : cfg.name = some name)
    (hrun : cfg.run = some run) (hne : name.isEmpty = false)
    (hfree : mapGet reg.commands (lower name) = none) :
    mapGet (register reg cfg).1.commands (lower name) =
      some (mkCommand cfg name run) := by
  rw [register_success_eq reg cfg name run hname hrun hne]
  exact registerAliases_preserves _ _ _ _ _
    (by rw [registerPrimary_free _ _ _ _ hfree]
        exact mapGet_set_self reg.commands (lower name) _)

theorem register_get_alias_free (reg : Registry) (cfg : CommandConfig)
    (name : String) (run : Handler) (a : String)
    (hname : cfg.name = some name) (hrun : cfg.run = some run)
    (hne : name.isEmpty = false) (ha : a ∈ cfg.aliases.getD [])
    (hfree : mapGet reg.commands (lower a) = none) :
    mapGet (register reg cfg).1.commands (lower a) =
      some (mkCommand cfg name run) := by
  rw [register_success_eq reg cfg name run hname hrun hne]
  have hmem : lower a ∈ (cfg.aliases.getD []).map lower :=
    List.mem_map.mpr ⟨a, ha, rfl⟩
  apply registerAliases_mem _ _ _ _ _ hmem
  by_cases hk : lower a = lower name
  · right
    rw [hk]
    rw [registerPrimary_free _ _ _ _ (hk ▸ hfree)]
    exact mapGet_set_self reg.commands (lower name) _
  · left
    rw [registerPrimary_get_ne _ _ _ _ _ hk]
    exact hfree

theorem register_get_primary_firstwins (reg : Registry)
    (cfg : CommandConfig) (name : String) (run : Handler)
    (existing : Command) (hname : cfg.name = some name)
    (hrun : cfg.run = some run) (hne : name.isEmpty = false)
    (hex : mapGet reg.commands (lower name) = some existing)
    (hexn : existing.name = lower name) :
    mapGet (register reg cfg).1.commands (lower name) = some existing := by
  rw [register_success_eq reg cfg name run hname hrun hne]
  apply registerAliases_preserves
  rw [registerPrimary_firstwins _ _ _ _ _ hex hexn]
  exact hex

theorem register_frame (reg : Registry) (cfg : CommandConfig)
    (name : String) (run : Handler) (k : String)
    (hname : cfg.name = some name) (hrun : cfg.run = some run)
    (hne : name.isEmpty = false) (hk : k ≠ lower name)
    (hka : ¬ k ∈ (cfg.aliases.getD []).map lower) :
    mapGet (register reg cfg).1.commands k = mapGet reg.commands k := by
  rw [register_success_eq reg cfg name run hname hrun hne]
  rw [registerAliases_not_mem _ _ _ _ hka]
  exact registerPrimary_get_ne _ _ _ _ _ hk

theorem mapGet_unregisterAliases (m : List (String × Command))
    (as : List String) (k : String) :
    mapGet (unregisterAliases m as) k =
      if k ∈ as.map lower then none else mapGet m k := by
  induction as generalizing m with
  | nil => simp [unregisterAliases]
  | cons a rest ih =>
    have step : unregisterAliases m (a :: rest) =
        unregisterAliases (mapDelete m (lower a)) rest := rfl
    rw [step, ih]
    by_cases hk : k = lower a
    · simp [hk, mapGet_delete]
    · by_cases hr : k ∈ rest.map lower
      · simp [hk, hr]
      · simp [hk, hr, mapGet_delete]

theorem codeUnitsLe_trans (as : List Char) : ∀ bs cs : List Char,
    codeUnitsLe as bs = true → codeUnitsLe bs cs = true →
    codeUnitsLe as cs = true := by
  induction as with
  | nil => intro bs cs _ _; simp [codeUnitsLe]
  | cons a as ih =>
    intro bs cs h1 h2
    cases bs with
    | nil => simp [codeUnitsLe] at h1
    | cons b bs =>
      cases cs with
      | nil => simp [codeUnitsLe] at h2
      | cons c cs =>
        simp only [codeUnitsLe] at h1 h2 ⊢
        by_cases hab : a.toNat < b.toNat
        · by_cases hbc : b.toNat < c.toNat
          · simp [show a.toNat < c.toNat by omega]
          · by_cases hcb : c.toNat < b.toNat
            · simp [hbc, hcb] at h2
            · simp [show a.toNat < c.toNat by omega]
        · by_cases hba : b.toNat < a.toNat
          · simp [hab, hba] at h1
          · have h1' : codeUnitsLe as bs = true := by
              simpa [hab, hba] using h1
            by_cases hbc : b.toNat < c.toNat
            · simp [show a.toNat < c.toNat by omega]
            · by_cases hcb : c.toNat < b.toNat
              · simp [hbc, hcb] at h2
              · have h2' : codeUnitsLe bs cs = true := by
                  simpa [hbc, hcb] using h2
                simp [show ¬ a.toNat < c.toNat by omega,
                  show ¬ c.toNat < a.toNat by omega]
                exact ih bs cs h1' h2'

theorem codeUnitsLe_total (as : List Char) : ∀ bs : List Char,
    (codeUnitsLe as bs || codeUnitsLe bs as) = true := by
  induction as with
  | nil => intro bs; simp [codeUnitsLe]
  | cons a as ih =>
    intro bs
    cases bs with
    | nil => simp [codeUnitsLe]
    | cons b bs =>
      simp only [codeUnitsLe]
      by_cases hab : a.toNat < b.toNat
      · simp [hab]
      · by_cases hba : b.toNat < a.toNat
        · simp [hab, hba]
        · simpa [hab, hba] using ih bs

theorem strLe_trans (a b c : String) (h1 : strLe a b = true)
    (h2 : strLe b c = true) : strLe a c = true :=
  codeUnitsLe_trans a.data b.data c.data h1 h2

theorem strLe_total (a b : String) : (strLe a b || strLe b a) = true :=
  codeUnitsLe_total a.data b.data

/-! ### Claim theorems -/

/-- C1: if the handler of a registered command that is eligible in the
active context throws during `execute`, the call returns (rather than
propagating — `execute` is a total function into `Result`) a failure
Result whose error message contains the thrown message as a substring,
and a subsequent `execute` of any other well-behaved registered command
on the same registry still succeeds. The command map is unchanged by
construction: `execute` only reads the map, which the embedding makes
explicit by returning a `Result` and no registry. -/
theorem execute_handler_fault_contained
    (reg : Registry) (name : String) (args : Args) (context : Option Ctx)
    (command : Command) (msg : String)
    (hlook : mapGet reg.commands (lower name) = some command)
    (helig : isAvailableInContext command context = true)
    (hthrow : command.run args context = .throws msg)
    (name2 : String) (args2 : Args) (command2 : Command) (r2 : Result)
    (hlook2 : mapGet reg.commands (lower name2) = some command2)
    (helig2 : isAvailableInContext command2 context = true)
    (hret2 : command2.run args2 context = .ret (some r2))
    (hsucc2 : r2.success = true) :
    execute reg name args context =
      { success := false, error := some ("Error: " ++ msg) }
    ∧ (∃ pre post, "Error: " ++ msg = pre ++ msg ++ post)
    ∧ execute reg name2 args2 context = r2
    ∧ (execute reg name2 args2 context).success = true := by
  refine ⟨?_, ⟨"Error: ", "", by simp⟩, ?_, ?_⟩
  · simp [execute, hlook, helig, hthrow]
  · simp [execute, hlook2, helig2, hret2]
  · simp [execute, hlook2, helig2, hret2, hsucc2]

/-- Witness for C1 on a registry holding the throwing `boom` and the
well-behaved `ok`. -/
theorem execute_handler_fault_contained_witness :
    execute regBoomOk "boom" [] none =
      { success := false, error := some ("Error: " ++ "kaboom") }
    ∧ (∃ pre post, "Error: " ++ "kaboom" = pre ++ "kaboom" ++ post)
    ∧ execute regBoomOk "ok" [] none =
        { success := true, output := some "done" }
    ∧ (execute regBoomOk "ok" [] none).success = true :=
  execute_handler_fault_contained regBoomOk "boom" [] none
    ⟨"boom", [], ["*"], "", "", hThrow, false⟩ "kaboom" rfl rfl rfl
    "ok" [] ⟨"ok", [], ["*"], "", "", hOk, false⟩
    { success := true, output := some "done" } rfl rfl rfl rfl

/-- C2: the Result of `execute` is exactly one of: lookup failure when
the lowercased name is absent, eligibility failure, error-wrapping
failure when the handler threw, the handler's own Result when it
returned one, or the default bare success when the handler returned
nothing; the guard conditions of the five cases are mutually
exclusive. -/
theorem execute_result_exactly_one (reg : Registry) (name : String)
    (args : Args) (context : Option Ctx) :
    (mapGet reg.commands (lower name) = none ∧
      execute reg name args context = notFoundResult name)
  ∨ (∃ command, mapGet reg.commands (lower name) = some command ∧
      isAvailableInContext command context = false ∧
      execute reg name args context = notAvailableResult name)
  ∨ (∃ command msg, mapGet reg.commands (lower name) = some command ∧
      isAvailableInContext command context = true ∧
      command.run args context = .throws msg ∧
      execute reg name args context =
        { success := false, error := some ("Error: " ++ msg) })
  ∨ (∃ command result, mapGet reg.commands (lower name) = some command ∧
      isAvailableInContext command context = true ∧
      command.run args context = .ret (some result) ∧
      execute reg name args context = result)
  ∨ (∃ command, mapGet reg.commands (lower name) = some command ∧
      isAvailableInContext command context = true ∧
      command.run args context = .ret none ∧
      execute reg name args context = { success := true }) := by
  cases hlook : mapGet reg.commands (lower name) with
  | none => exact Or.inl ⟨rfl, by simp [execute, hlook, notFoundResult]⟩
  | some command =>
    cases helig : isAvailableInContext command context with
    | false =>
      exact Or.inr (Or.inl ⟨command, rfl, helig,
        by simp [execute, hlook, helig, notAvailableResult]⟩)
    | true =>
      cases hrun : command.run args context with
      | throws msg =>
        exact Or.inr (Or.inr (Or.inl ⟨command, msg, rfl, helig, hrun,
          by simp [execute, hlook, helig, hrun]⟩))
      | ret result =>
        cases result with
        | some r =>
          exact Or.inr (Or.inr (Or.inr (Or.inl ⟨command, r, rfl, helig,
            hrun, by simp [execute, hlook, helig, hrun]⟩)))
        | none =>
          exact Or.inr (Or.inr (Or.inr (Or.inr ⟨command, rfl, helig,
            hrun, by simp [execute, hlook, helig, hrun]⟩)))

/-- C3: for a context whose `type` tag is non-empty (the data model's
well-formedness: `type` is a category tag such as `local`/`bbs`/`ssh`),
a command is eligible exactly when its `contexts` set contains the
wildcard or the active context's type; a command with an empty
`contexts` list is eligible in no context at all; and when ineligible,
`execute` fails with the eligibility error whatever the handler is, so
the handler is never invoked. -/
theorem eligibility_wildcard_or_type (command : Command) (ctx : Ctx)
    (hty : ctx.type.isEmpty = false) :
    (isAvailableInContext command (some ctx) =
      (command.contexts.contains "*" || command.contexts.contains ctx.type))
  ∧ (command.contexts = [] →
      ∀ context : Option Ctx, isAvailableInContext command context = false)
  ∧ (isAvailableInContext command (some ctx) = false →
      ∀ (f : Handler) (reg : Registry) (name : String) (args : Args),
        mapGet reg.commands (lower name) = some { command with run := f } →
        execute reg name args (some ctx) = notAvailableResult name) := by
  refine ⟨?_, ?_, ?_⟩
  · simp only [isAvailableInContext, contextType, hty, if_false,
      Bool.false_eq_true]
    cases hc : command.contexts.contains "*" <;> simp
  · intro hempty context
    simp [isAvailableInContext, hempty]
  · intro hinelig f reg name args hlook
    have helig' : isAvailableInContext { command with run := f }
        (some ctx) = false := by
      simpa [isAvailableInContext] using hinelig
    simp [execute, hlook, helig']

/-- Witness for C3: the `bbs`-only `login` command against a context of
type `local`. -/
theorem eligibility_wildcard_or_type_witness :
    (isAvailableInContext cmdBbs (some ⟨"local"⟩) =
      (cmdBbs.contexts.contains "*" || cmdBbs.contexts.contains "local"))
  ∧ (cmdBbs.contexts = [] →
      ∀ context : Option Ctx, isAvailableInContext cmdBbs context = false)
  ∧ (isAvailableInContext cmdBbs (some ⟨"local"⟩) = false →
      ∀ (f : Handler) (reg : Registry) (name : String) (args : Args),
        mapGet reg.commands (lower name) = some { cmdBbs with run := f } →
        execute reg name args (some ⟨"local"⟩) = notAvailableResult name) :=
  eligibility_wildcard_or_type cmdBbs ⟨"local"⟩ rfl

/-- C7: `switchContext` on an unregistered id leaves the whole manager
state unchanged (in particular `getCurrentContext` and the context
stack), returns failure, emits exactly the visible error notification,
and invokes no `onExit`/`onEnter` hook. -/
theorem switchContext_unknown_id (s : CMState) (contextId : String)
    (params : Params) (h : mapGet s.contexts contextId = none) :
    (switchContext s contextId params).1 = s
  ∧ getCurrentContext (switchContext s contextId params).1 =
      getCurrentContext s
  ∧ (switchContext s contextId params).1.contextStack = s.contextStack
  ∧ (switchContext s contextId params).2.2 = false
  ∧ (switchContext s contextId params).2.1 =
      [CMEvent.output ("Error: Unknown context '" ++ contextId ++ "'")
        "text-error"]
  ∧ (∀ e ∈ (switchContext s contextId params).2.1,
      (∀ id, e ≠ CMEvent.exitHook id) ∧
      ∀ id p, e ≠ CMEvent.enterHook id p) := by
  refine ⟨?_, ?_, ?_, ?_, ?_, ?_⟩ <;>
    simp [switchContext, h, getCurrentContext]

/-- Witness for C7: switching to the unregistered id `nonexistent`. -/
theorem switchContext_unknown_id_witness :
    (switchContext cmActive "nonexistent" []).1 = cmActive
  ∧ getCurrentContext (switchContext cmActive "nonexistent" []).1 =
      getCurrentContext cmActive
  ∧ (switchContext cmActive "nonexistent" []).1.contextStack =
      cmActive.contextStack
  ∧ (switchContext cmActive "nonexistent" []).2.2 = false
  ∧ (switchContext cmActive "nonexistent" []).2.1 =
      [CMEvent.output ("Error: Unknown context '" ++ "nonexistent" ++ "'")
        "text-error"]
  ∧ (∀ e ∈ (switchContext cmActive "nonexistent" []).2.1,
      (∀ id, e ≠ CMEvent.exitHook id) ∧
      ∀ id p, e ≠ CMEvent.enterHook id p) :=
  switchContext_unknown_id cmActive "nonexistent" [] rfl

/-- C8: for a switch to a registered context while one is active, the
event trace shows the outgoing context's `onExit` running to completion
strictly before the incoming context's `onEnter` (the hooks are awaited
sequentially), and afterwards exactly the target is the current
context — `currentContext : Option CtxInst` holds a single instance, so
at most one context is ever active. -/
theorem switchContext_exit_before_enter (s : CMState) (contextId : String)
    (params : Params) (cur newContext : CtxInst)
    (hcur : s.currentContext = some cur)
    (hreg : mapGet s.contexts contextId = some newContext) :
    (switchContext s contextId params).2.1 =
      [CMEvent.exitHook cur.id, CMEvent.enterHook newContext.id params,
       CMEvent.contextChanged contextId newContext.prompt]
  ∧ (switchContext s contextId params).2.2 = true
  ∧ (switchContext s contextId params).1.currentContext =
      some newContext := by
  refine ⟨?_, ?_, ?_⟩ <;> simp [switchContext, hreg, hcur]

/-- Witness for C8: switching from the active `local` context to the
registered `bbs` context. -/
theorem switchContext_exit_before_enter_witness :
    (switchContext cmActive "bbs" []).2.1 =
      [CMEvent.exitHook ctxLocalInst.id,
       CMEvent.enterHook ctxBbsInst.id [],
       CMEvent.contextChanged "bbs" ctxBbsInst.prompt]
  ∧ (switchContext cmActive "bbs" []).2.2 = true
  ∧ (switchContext cmActive "bbs" []).1.currentContext =
      some ctxBbsInst :=
  switchContext_exit_before_enter cmActive "bbs" [] ctxLocalInst
    ctxBbsInst rfl rfl

/-- C10: with a null/undefined context, eligibility is evaluated as if
the active context's type were `local`: a command is available exactly
when its `contexts` set holds the wildcard or `local`;
`getAvailableCommands` with no context coincides with
`getAvailableCommands` under a context of type `local`; and `execute`
with no context invokes the handler of any registered command whose
`contexts` set admits `local`, returning the handler-determined
Result. -/
theorem null_context_treated_as_local (command : Command) :
    (isAvailableInContext command none =
      (command.contexts.contains "*" || command.contexts.contains "local"))
  ∧ (∀ reg : Registry,
      getAvailableCommands reg none =
        getAvailableCommands reg (some ⟨"local"⟩))
  ∧ (∀ (reg : Registry) (name : String) (args : Args),
      mapGet reg.commands (lower name) = some command →
      isAvailableInContext command none = true →
      execute reg name args none =
        (match command.run args none with
         | .throws msg =>
            { success := false, error := some ("Error: " ++ msg) }
         | .ret (some result) => result
         | .ret none => { success := true })) := by
  refine ⟨?_, ?_, ?_⟩
  · simp only [isAvailableInContext, contextType]
    cases hc : command.contexts.contains "*" <;> simp
  · intro reg
    have hctx : ∀ c : Command,
        isAvailableInContext c (some ⟨"local"⟩) =
          isAvailableInContext c none := by
      intro c
      simp [isAvailableInContext, contextType, String.isEmpty]
    simp only [getAvailableCommands, hctx]
  · intro reg name args hlook helig
    cases hrun : command.run args none with
    | throws msg => simp [execute, hlook, helig, hrun]
    | ret result =>
      cases result with
      | some r => simp [execute, hlook, helig, hrun]
      | none => simp [execute, hlook, helig, hrun]

/-- Witness for C10: the `local`-only command `go` is eligible and its
handler is invoked when `execute` runs with no active context. -/
theorem null_context_treated_as_local_witness :
    isAvailableInContext cmdLocal none = true
  ∧ execute regLocal "go" [] none =
      { success := true, output := some "done" } :=
  ⟨rfl, by
    have h := (null_context_treated_as_local cmdLocal).2.2 regLocal
      "go" [] rfl rfl
    simpa using h⟩

/-- C4 counterexample: re-registering the primary name `a` returns
success, yet the map still holds the first command under key `a` — the
new command (description `second`) was not inserted under its lowercased
primary name, refuting the claim as stated. -/
theorem register_occupied_key_counterexample :
    (register regA1 cfgA2).2 = true
  ∧ (getCommand (register regA1 cfgA2).1 "a").map (·.description) =
      some "first"
  ∧ ¬ (getCommand (register regA1 cfgA2).1 "a").map (·.description) =
      some "second" :=
  ⟨rfl, rfl, by decide⟩

/-- C4 amended: a missing or empty name, or a missing handler, makes
`register` fail with the map unchanged; otherwise `register` returns
success and inserts the built command under the lowercased primary name
and under each lowercased alias whose key was previously unused, while
a previously occupied key is not overwritten when its entry's stored
name equals the key (first registration wins), and every key other than
the primary name and the aliases is untouched. -/
theorem register_spec (reg : Registry) (cfg : CommandConfig) :
    ((cfg.name = none ∨ cfg.name = some "" ∨ cfg.run = none) →
      register reg cfg = (reg, false))
  ∧ (∀ name run, cfg.name = some name → cfg.run = some run →
      name.isEmpty = false →
      (register reg cfg).2 = true
    ∧ (mapGet reg.commands (lower name) = none →
        mapGet (register reg cfg).1.commands (lower name) =
          some (mkCommand cfg name run))
    ∧ (∀ a ∈ cfg.aliases.getD [], mapGet reg.commands (lower a) = none →
        mapGet (register reg cfg).1.commands (lower a) =
          some (mkCommand cfg name run))
    ∧ (∀ existing, mapGet reg.commands (lower name) = some existing →
        existing.name = lower name →
        mapGet (register reg cfg).1.commands (lower name) = some existing)
    ∧ (∀ k, k ≠ lower name → ¬ k ∈ (cfg.aliases.getD []).map lower →
        mapGet (register reg cfg).1.commands k = mapGet reg.commands k)) := by
  constructor
  · rintro (h | h | h)
    · cases hrun : cfg.run <;> simp [register, h, hrun]
    · cases hrun : cfg.run with
      | none => simp [register, h, hrun]
      | some r =>
        simp [register, h, hrun]
        rfl
    · cases hname : cfg.name <;> simp [register, h, hname]
  · intro name run hname hrun hne
    refine ⟨?_, ?_, ?_, ?_, ?_⟩
    · rw [register_success_eq reg cfg name run hname hrun hne]
    · intro hfree
      exact register_get_primary_free reg cfg name run hname hrun hne hfree
    · intro a ha hfree
      exact register_get_alias_free reg cfg name run a hname hrun hne
        ha hfree
    · intro existing hex hexn
      exact register_get_primary_firstwins reg cfg name run existing
        hname hrun hne hex hexn
    · intro k hk hka
      exact register_frame reg cfg name run k hname hrun hne hk hka

/-- Witness for C4 (amended): registering `help` (alias `h`) into the
empty registry succeeds and inserts the command under both keys;
registering a configuration with no handler fails. -/
theorem register_spec_witness :
    register Registry.empty { name := some "nohandler" } =
      (Registry.empty, false)
  ∧ (register Registry.empty cfgHelp).2 = true
  ∧ mapGet (register Registry.empty cfgHelp).1.commands "help" =
      some (mkCommand cfgHelp "help" hNone)
  ∧ mapGet (register Registry.empty cfgHelp).1.commands "h" =
      some (mkCommand cfgHelp "help" hNone) := by
  have h1 := (register_spec Registry.empty
    { name := some "nohandler" }).1 (Or.inr (Or.inr rfl))
  have h2 := (register_spec Registry.empty cfgHelp).2 "help" hNone
    rfl rfl rfl
  exact ⟨h1, h2.1, h2.2.1 rfl, h2.2.2.1 "h" (by decide) rfl⟩

/-- C5 counterexample: `help` is registered with alias `h`; calling
`unregister` with the alias reports success but leaves the command's
primary entry `help` in the map, refuting the claim that the found
command's primary entry is removed. -/
theorem unregister_alias_counterexample :
    (unregister regH "h").2 = true
  ∧ hasCommand (unregister regH "h").1 "help" = true
  ∧ hasCommand (unregister regH "h").1 "h" = false :=
  ⟨rfl, rfl, rfl⟩

/-- C5 amended: when the lowercased name is not a key, `unregister`
reports not-found and leaves the map unchanged; otherwise it returns
success and removes exactly the looked-up key itself together with
every lowercased alias key of the found command — so invoking it with
an alias leaves the primary entry in place, and an alias key bound to a
different command is removed all the same; all other keys keep their
bindings. -/
theorem unregister_spec (reg : Registry) (name : String) :
    (mapGet reg.commands (lower name) = none →
      unregister reg name = (reg, false))
  ∧ (∀ command, mapGet reg.commands (lower name) = some command →
      (unregister reg name).2 = true
    ∧ ∀ k, mapGet (unregister reg name).1.commands k =
        (if k = lower name ∨ k ∈ command.aliases.map lower then none
         else mapGet reg.commands k)) := by
  constructor
  · intro h; simp [unregister, h]
  · intro command h
    constructor
    · simp [unregister, h]
    · intro k
      have hm : (unregister reg name).1.commands =
          unregisterAliases (mapDelete reg.commands (lower name))
            command.aliases := by
        simp [unregister, h]
      rw [hm, mapGet_unregisterAliases]
      by_cases h1 : k ∈ command.aliases.map lower
      · simp [h1]
      · by_cases h2 : k = lower name <;> simp [h1, h2, mapGet_delete]

/-- Witness for C5 (amended): unregistering `help` removes both the
primary key and the alias key; unregistering an unknown name fails. -/
theorem unregister_spec_witness :
    unregister regH "nope" = (regH, false)
  ∧ (unregister regH "help").2 = true
  ∧ mapGet (unregister regH "help").1.commands "help" = none
  ∧ mapGet (unregister regH "help").1.commands "h" = none := by
  have h1 := (unregister_spec regH "nope").1 rfl
  have h2 := (unregister_spec regH "help").2
    ⟨"help", ["h"], ["*"], "", "", hNone, false⟩ rfl
  refine ⟨h1, h2.1, ?_, ?_⟩
  · have := h2.2 "help"
    simpa using this
  · have := h2.2 "h"
    simpa [lower, lowerChar] using this

/-- C6 counterexample: `b` is registered with alias `a` while an
unrelated command already owns the key `a`; `getCommand` on the primary
name and on the alias then resolve to different commands, refuting the
claim for arbitrary registered commands. -/
theorem getCommand_alias_counterexample :
    (getCommand regB "b").map (·.description) = some "second"
  ∧ (getCommand regB "a").map (·.description) = some "first"
  ∧ ¬ (getCommand regB "b").map (·.description) =
      (getCommand regB "a").map (·.description) :=
  ⟨rfl, rfl, by decide⟩

/-- C6 amended: when a command is registered while its lowercased
primary name and all of its lowercased aliases are unused keys, the
(case-insensitive) `getCommand` on the primary name and on every alias
resolve to the same command object. -/
theorem getCommand_alias_same (reg : Registry) (cfg : CommandConfig)
    (name : String) (run : Handler) (hname : cfg.name = some name)
    (hrun : cfg.run = some run) (hne : name.isEmpty = false)
    (hfree : mapGet reg.commands (lower name) = none)
    (hfreeA : ∀ a ∈ cfg.aliases.getD [],
      mapGet reg.commands (lower a) = none) :
    getCommand (register reg cfg).1 name = some (mkCommand cfg name run)
  ∧ ∀ a ∈ cfg.aliases.getD [],
      getCommand (register reg cfg).1 a = some (mkCommand cfg name run) := by
  constructor
  · exact register_get_primary_free reg cfg name run hname hrun hne hfree
  · intro a ha
    exact register_get_alias_free reg cfg name run a hname hrun hne ha
      (hfreeA a ha)

/-- Witness for C6 (amended): after freshly registering `help` with
alias `h`, both lookups return the same command. -/
theorem getCommand_alias_same_witness :
    getCommand regH "help" = some (mkCommand cfgHelp "help" hNone)
  ∧ ∀ a ∈ cfgHelp.aliases.getD [],
      getCommand regH a = some (mkCommand cfgHelp "help" hNone) :=
  getCommand_alias_same Registry.empty cfgHelp "help" hNone rfl rfl rfl
    rfl (by intro a ha; rfl)

/-- C9 counterexample: a command registered under the mixed-case primary
name `Help` sits in the map only under its primary key `help` (it has no
aliases), is not hidden and is eligible everywhere, yet
`getAvailableCommands` returns the empty list, because the stored name
`Help` differs from the lowercased key: the claim that every non-hidden
eligible command's primary name appears is refuted. -/
theorem getAvailable_mixed_case_counterexample :
    getAvailableCommands regUC none = []
  ∧ regUC.commands.map (·.1) = ["help"]
  ∧ (getCommand regUC "help").map (·.name) = some "Help"
  ∧ (getCommand regUC "help").map (·.hidden) = some false
  ∧ (getCommand regUC "help").map (·.aliases) = some []
  ∧ (getCommand regUC "help").map
      (fun c => isAvailableInContext c none) = some true := by
  refine ⟨?_, rfl, rfl, rfl, rfl, rfl⟩
  have h : (regUC.commands.filter (fun e =>
      e.2.name == e.1 && !e.2.hidden && isAvailableInContext e.2 none)).map
      (·.1) = ([] : List String) := rfl
  simp [getAvailableCommands, h]

/-- C9 amended: on a registry whose key list is duplicate-free (the JS
`Map` invariant), `getAvailableCommands` returns the sorted
(code-unit order), duplicate-free list of exactly those map keys whose
stored command's `name` equals the key, is not hidden, and is eligible
in the given context — primary entries whose registered name differs
from the lowercased key are omitted like aliases. -/
theorem getAvailableCommands_spec (reg : Registry) (context : Option Ctx)
    (hwf : (reg.commands.map (·.1)).Nodup) :
    List.Pairwise (fun a b => strLe a b = true)
      (getAvailableCommands reg context)
  ∧ (getAvailableCommands reg context).Nodup
  ∧ ∀ k, k ∈ getAvailableCommands reg context ↔
      ∃ c, (k, c) ∈ reg.commands ∧ c.name = k ∧ c.hidden = false ∧
        isAvailableInContext c context = true := by
  have hunfold : getAvailableCommands reg context =
      ((reg.commands.filter (fun e =>
        e.2.name == e.1 && !e.2.hidden &&
        isAvailableInContext e.2 context)).map (·.1)).mergeSort strLe := rfl
  refine ⟨?_, ?_, ?_⟩
  · rw [hunfold]
    exact List.sorted_mergeSort (fun a b c => strLe_trans a b c)
      (fun a b => strLe_total a b) _
  · rw [hunfold]
    have hsub : ((reg.commands.filter (fun e =>
        e.2.name == e.1 && !e.2.hidden &&
        isAvailableInContext e.2 context)).map (·.1)).Sublist
          (reg.commands.map (·.1)) :=
      (List.filter_sublist _).map _
    have hperm := List.mergeSort_perm ((reg.commands.filter (fun e =>
        e.2.name == e.1 && !e.2.hidden &&
        isAvailableInContext e.2 context)).map (·.1)) strLe
    exact hperm.symm.nodup (hwf.sublist hsub)
  · intro k
    rw [hunfold, List.mem_mergeSort, List.mem_map]
    constructor
    · rintro ⟨⟨k', c⟩, he, rfl⟩
      rw [List.mem_filter] at he
      obtain ⟨hmem, hp⟩ := he
      simp only [Bool.and_eq_true, beq_iff_eq, Bool.not_eq_true'] at hp
      exact ⟨c, hmem, hp.1.1, hp.1.2, hp.2⟩
    · rintro ⟨c, hmem, hname, hhid, havail⟩
      refine ⟨(k, c), List.mem_filter.mpr ⟨hmem, ?_⟩, rfl⟩
      simp [hname, hhid, havail]

/-- Witness for C9 (amended) on the registry holding `help` with its
alias `h`. -/
theorem getAvailableCommands_spec_witness :
    List.Pairwise (fun a b => strLe a b = true)
      (getAvailableCommands regH none)
  ∧ (getAvailableCommands regH none).Nodup
  ∧ ∀ k, k ∈ getAvailableCommands regH none ↔
      ∃ c, (k, c) ∈ regH.commands ∧ c.name = k ∧ c.hidden = false ∧
        isAvailableInContext c none = true :=
  getAvailableCommands_spec regH none (by decide)

end TermEngine
